import Mathlib

/-!
Verification development for the capability-based routing and
workflow-orchestration engine of the Browzer extensions framework.

The definitions below are a shallow embedding of the Python sources:
  * `extensions-framework/core/workflow_analyzer.py`  (WorkflowAnalyzer)
  * `extensions-framework/core/workflow_executor.py`  (WorkflowExecutor)
  * `extensions-framework/core/optimized_workflow_executor.py`
    (OptimizedWorkflowExecutor, ExtensionProcess)
  * `extensions-framework/core/smart_extension_router.py` (SmartExtensionRouter)

Modelling conventions:
  * Python `str` is modelled by Lean `String`; `str.lower()` by an ASCII
    character map (all concrete inputs used here are ASCII).
  * Python `dict` (insertion ordered) is modelled by an association list;
    Python `set` by a list considered up to duplicates — wherever the Python
    code iterates over a set, the embedding first removes duplicates keeping
    the first occurrence, and the list order stands in for the (otherwise
    unspecified) set iteration order.
  * Python floats are modelled exactly: every score and confidence in the
    embedded code is a multiple of 0.1, so internal scores are carried as
    fixed-point integers in tenths (the source constant `5.0` appears as
    `50`, `0.5` as `5`, and so on; each definition's doc comment records
    the scaling). The scaling is strictly monotone, so every comparison is
    preserved exactly, and no verified property is sensitive to float
    rounding. The `confidence` field exposed by `WorkflowAnalysis` is an
    exact rational, recovered from the tenths value by `tenthsToRat`.
  * The fixed regular expressions of `_build_dynamic_intent_patterns` are
    transliterated into a small derivative-based matcher; `re.search` is
    modelled as existence of a matching slice with word-boundary checks at
    both ends (every embedded pattern begins and ends with a word-character
    atom, so `\b` at the ends amounts to exactly that check; the inner `\b`
    of `\bcompare.*\bwith\b` is compiled into the pattern itself).
-/

/-! ### Generic string utilities -/

/-- ASCII lower-casing, modelling Python `str.lower()` on ASCII input. -/
def toLowerStr (s : String) : String := String.mk (s.data.map Char.toLower)

/-- Word characters of the regex class `\w` (ASCII fragment). -/
def isWordChar (c : Char) : Bool := c.isAlphanum || c == '_'

/-- Substring test, modelling Python `pat in hay`. -/
def strContains (hay pat : String) : Bool :=
  hay.data.tails.any (fun t => pat.data.isPrefixOf t)

/-- Helper of `splitWs`: accumulates the current word (reversed). -/
def splitWsAux : List Char → List Char → List (List Char)
  | acc, [] => if acc.isEmpty then [] else [acc.reverse]
  | acc, c :: cs =>
    if c.isWhitespace then
      if acc.isEmpty then splitWsAux [] cs else acc.reverse :: splitWsAux [] cs
    else splitWsAux (c :: acc) cs

/-- Whitespace splitting, modelling Python `str.split()` with no argument. -/
def splitWs (s : String) : List String := (splitWsAux [] s.data).map String.mk

/-- Number of whitespace-separated words, modelling `len(s.split())`. -/
def wordCount (s : String) : Nat := (splitWs s).length

/-- Conversion from tenths fixed point to an exact rational
(`tenthsToRat 9 = 0.9`). -/
def tenthsToRat (n : Int) : ℚ := (n : ℚ) / 10

/-- Duplicate removal keeping the first occurrence, modelling the Python
idiom `seen = set(); [x for x in l if x not in seen and not seen.add(x)]`
and, where noted, iteration over a Python `set` built from a list. -/
def dedupFirst : List String → List String :=
  dedupFirstAux []
where
  dedupFirstAux (seen : List String) : List String → List String
    | [] => []
    | x :: xs =>
      if x ∈ seen then dedupFirstAux seen xs
      else x :: dedupFirstAux (x :: seen) xs

/-! ### Association lists (Python dicts) -/

/-- Lookup in an insertion-ordered association list (Python `d.get(k)`). -/
def lookupAssoc {α : Type} (m : List (String × α)) (k : String) : Option α :=
  (m.find? (fun p => p.1 == k)).map (·.2)

/-- Update/insert preserving order (Python `d[k] = v`: an existing key keeps
its position, a new key is appended). -/
def updateAssoc {α : Type} : List (String × α) → String → α → List (String × α)
  | [], k, v => [(k, v)]
  | (k', v') :: rest, k, v =>
    if k' = k then (k', v) :: rest else (k', v') :: updateAssoc rest k v

/-- Removal of a key (used to build a pool state that has never seen a key). -/
def removeAssoc {α : Type} (m : List (String × α)) (k : String) : List (String × α) :=
  m.filter (fun p => p.1 ≠ k)

/-! ### A small regular-expression engine

Brzozowski-derivative matcher for the fixed patterns of
`WorkflowAnalyzer._build_dynamic_intent_patterns`. -/

/-- Regular expressions over characters: empty language, empty word,
character class, concatenation, alternation, Kleene star. -/
inductive RE where
  | emp : RE
  | eps : RE
  | cls : (Char → Bool) → RE
  | cat : RE → RE → RE
  | alt : RE → RE → RE
  | star : RE → RE

/-- Does the language of `r` contain the empty word? -/
def reNull : RE → Bool
  | .emp => false
  | .eps => true
  | .cls _ => false
  | .cat a b => reNull a && reNull b
  | .alt a b => reNull a || reNull b
  | .star _ => true

/-- Brzozowski derivative of `r` by the character `c`. -/
def reDeriv (r : RE) (c : Char) : RE :=
  match r with
  | .emp => .emp
  | .eps => .emp
  | .cls p => if p c then .eps else .emp
  | .cat a b =>
    if reNull a then .alt (.cat (reDeriv a c) b) (reDeriv b c)
    else .cat (reDeriv a c) b
  | .alt a b => .alt (reDeriv a c) (reDeriv b c)
  | .star a => .cat (reDeriv a c) (.star a)

/-- Does some prefix of `cs` match `r`, ending either at the end of the
string or immediately before a non-word character (the right-hand `\b`)? -/
def reScan (r : RE) : List Char → Bool
  | [] => reNull r
  | c :: cs => (reNull r && !isWordChar c) || reScan (reDeriv r c) cs

/-- Search loop of `reSearchWB`: tries every start position whose preceding
character is not a word character (the left-hand `\b`). -/
def reSearchFrom (r : RE) (prevIsWord : Bool) : List Char → Bool
  | [] => !prevIsWord && reNull r
  | c :: cs =>
    (!prevIsWord && reScan r (c :: cs)) || reSearchFrom r (isWordChar c) cs

/-- Word-boundary-delimited search, modelling `re.search(p, s) is not None`
for a pattern `p` of the shape `\b…\b` whose body begins and ends with a
word-character atom. -/
def reSearchWB (r : RE) (s : String) : Bool := reSearchFrom r false s.data

/-- Does any pattern of the list match the string (Python
`any(re.search(p, s) for p in patterns)`)? -/
def searchAny (ps : List RE) (s : String) : Bool := ps.any (fun r => reSearchWB r s)

/-- Literal word as a regular expression. -/
def reLit (s : String) : RE :=
  s.data.foldr (fun c r => RE.cat (RE.cls (fun d => d == c)) r) RE.eps

/-- One or more repetitions. -/
def rePlus (r : RE) : RE := .cat r (.star r)

/-- The class `\s+`. -/
def reWs1 : RE := rePlus (.cls Char.isWhitespace)

/-- The class `\d+` (capture groups are irrelevant to a boolean search). -/
def reDigit1 : RE := rePlus (.cls Char.isDigit)

/-- The class `\w+`. -/
def reWord1 : RE := rePlus (.cls isWordChar)

/-- The regex `.` (anything but a newline). -/
def reDot : RE := .cls (fun c => c != '\n')

/-- Optional occurrence (`r?`). -/
def reOpt (r : RE) : RE := .alt r .eps

/-- Pattern `\bX\s+(\d+)\s+words?\b` for a leading literal `X`
(used for the `in`/`under`/`max` word-limit patterns). -/
def reNumWords (lead : String) : RE :=
  .cat (reLit lead) (.cat reWs1 (.cat reDigit1 (.cat reWs1
    (.cat (reLit "word") (reOpt (reLit "s"))))))

/-- The fixed `sequential_connectors` patterns of
`_build_dynamic_intent_patterns`. -/
def sequentialConnectors : List RE :=
  [ .cat (reLit "and") (.cat reWs1 (reLit "then")),
    reLit "then",
    .cat (reLit "after") (.cat reWs1 (reLit "that")),
    .cat (reLit "followed") (.cat reWs1 (reLit "by")),
    reLit "subsequently",
    reLit "next" ]

/-- The fixed `parallel_connectors` patterns. The second entry embeds the
inner `\b` of `\bcompare.*\bwith\b`: since `w` is a word character, that
boundary forces the character right before `with` to be a non-word
character consumed by `.*`. -/
def parallelConnectors : List RE :=
  [ .cat (reLit "and") (.cat reWs1 (reLit "also")),
    .cat (reLit "compare") (.cat (.star reDot)
      (.cat (.cls (fun c => c != '\n' && !isWordChar c)) (reLit "with"))),
    .cat reWord1 (.cat reWs1 (.cat (reLit "vs") (.cat reWs1 reWord1))),
    reLit "simultaneously",
    reLit "meanwhile" ]

/-- The fixed `constraint_patterns` (explicit numeric output constraints). -/
def constraintPatterns : List RE :=
  [ reNumWords "in",
    reNumWords "under",
    .cat (reLit "summarize") (.cat reWs1 (.cat (reLit "in") (.cat reWs1 reDigit1))),
    reNumWords "max" ]

/-! ### WorkflowAnalyzer: data model

Embeds the post-discovery state of `WorkflowAnalyzer`: the
`extension_capabilities` dictionary produced by
`_discover_extension_capabilities` (manifest reading itself is file I/O and
is not embedded; every claim below quantifies over the discovered state).
The `priority` field holds the normalised value `priority / 10.0` computed
at discovery time, in tenths fixed point — numerically, the raw manifest
priority. -/

structure ExtensionCapability where
  extension_id : String
  capabilities : List String
  keywords : List String
  intents : List String
  category : String
  priority : Int
  input_types : List String
  output_types : List String
deriving DecidableEq, Repr

/-- The discovered analyzer state: `self.extension_capabilities`
(an insertion-ordered dict `extension_id → ExtensionCapability`). -/
structure AnalyzerState where
  extension_capabilities : List (String × ExtensionCapability)
deriving DecidableEq, Repr

/-- Default record used to make dictionary indexing total; the embedded
functions only ever index identifiers present in the state (in Python a
missing key would raise `KeyError`). -/
def defaultExtCap : ExtensionCapability :=
  { extension_id := "", capabilities := [], keywords := [], intents := [],
    category := "", priority := 0, input_types := [], output_types := [] }

/-- Dictionary indexing `self.extension_capabilities[ext_id]`. -/
def lookupExtD (st : AnalyzerState) (extId : String) : ExtensionCapability :=
  ((lookupAssoc st.extension_capabilities extId).getD defaultExtCap)

/-- Stable insertion of `e` into a list already sorted by descending
priority (an element is placed after every element of greater or equal
priority), modelling Python's stable `list.sort(key=priority, reverse=True)`. -/
def insertByPrioDesc (st : AnalyzerState) : List String → String → List String
  | [], e => [e]
  | x :: xs, e =>
    if (lookupExtD st e).priority ≤ (lookupExtD st x).priority then
      x :: insertByPrioDesc st xs e
    else e :: x :: xs

/-- Stable sort by descending priority (`_build_capability_map`'s
`extensions.sort(key=..., reverse=True)`). -/
def sortExtsByPrioDesc (st : AnalyzerState) (ids : List String) : List String :=
  ids.foldl (insertByPrioDesc st) []

/-- Append `v` to the bucket of key `k` of an insertion-ordered multimap,
creating the key at the end if absent. -/
def odAppend (m : List (String × List String)) (k v : String) : List (String × List String) :=
  match m with
  | [] => [(k, [v])]
  | (k', vs) :: rest =>
    if k' = k then (k', vs ++ [v]) :: rest else (k', vs) :: odAppend rest k v

/-- Embeds `WorkflowAnalyzer._build_capability_map`: invert the state into
`capability → [extension ids]`, each bucket sorted by descending priority.
The Python loop iterates a `set` of capabilities; the embedding iterates the
capability list with duplicates removed (first occurrence kept). -/
def buildCapabilityMap (st : AnalyzerState) : List (String × List String) :=
  let raw := st.extension_capabilities.foldl
    (fun m p => (dedupFirst p.2.capabilities).foldl (fun m' cap => odAppend m' cap p.1) m) []
  raw.map (fun p => (p.1, sortExtsByPrioDesc st p.2))

/-- Embeds `WorkflowAnalyzer._get_capability_synonyms`. -/
def capabilitySynonyms (cap : String) : List String :=
  if cap = "research" then ["investigate", "study", "explore", "examine", "lookup", "find"]
  else if cap = "summarize" then ["summary", "brief", "concise", "shorten", "condense", "abstract"]
  else if cap = "analyze" then ["analysis", "evaluate", "examine", "assess", "review", "study"]
  else if cap = "compare" then ["comparison", "contrast", "versus", "vs", "against", "difference"]
  else if cap = "explain" then ["explanation", "clarify", "describe", "elaborate", "detail"]
  else if cap = "search" then ["find", "lookup", "seek", "locate", "discover"]
  else if cap = "generate" then ["create", "produce", "make", "build", "construct"]
  else if cap = "format" then ["structure", "organize", "arrange", "layout", "style"]
  else if cap = "extract" then ["get", "pull", "retrieve", "obtain", "collect"]
  else if cap = "verify" then ["check", "confirm", "validate", "authenticate", "prove"]
  else []

/-- Embeds `WorkflowAnalyzer._has_workflow_indicators`: the three fixed
pattern families searched in order with early return, i.e. their
disjunction. (The dynamically generated `capability_patterns` key of
`intent_patterns` is never consulted by this method.) -/
def hasWorkflowIndicators (query : String) : Bool :=
  let ql := toLowerStr query
  searchAny sequentialConnectors ql || searchAny parallelConnectors ql ||
    searchAny constraintPatterns ql

/-- Embeds the `has_word_constraints` test of `_optimize_pipeline_flow`
(also reused by the summarize boost of `_detect_required_capabilities`). -/
def hasWordConstraints (query : String) : Bool :=
  searchAny constraintPatterns (toLowerStr query)

/-- Embeds the per-capability score of
`WorkflowAnalyzer._detect_required_capabilities` (the body of the loop over
`self.capability_map.items()`), for an already lower-cased query `ql`, in
tenths fixed point (source constants `5.0, 2.0, 3.0, 6.0, 4.0, 1.0, 5.0`
appear as `50, 20, 30, 60, 40, 10, 50`). -/
def scoreCapability (cap ql : String) : Int :=
  (if strContains ql cap then 50 else 0)
  + 20 * (((splitWs cap).filter (fun w => strContains ql w)).length : Int)
  + 30 * (((capabilitySynonyms cap).filter (fun syn => strContains ql syn)).length : Int)
  + (if (cap = "research" ∨ cap = "comprehensive research")
        ∧ (["research", "investigate", "study", "find out", "lookup"].any
            (fun w => strContains ql w)) then 60 else 0)
  + (if cap = "search" then
      (if strContains ql "search" ∧ ¬ strContains ql "research" then 40
       else if strContains ql "search" ∧ strContains ql "research" then 10 else 0)
     else 0)
  + (if cap = "summarize"
        ∧ (["summarize", "summary", "brief", "concise", "shorten"].any
            (fun w => strContains ql w)) then
      60 + (if searchAny constraintPatterns ql then 30 else 0)
     else 0)
  + (if cap = "analyze"
        ∧ (["analyze", "analysis", "evaluate", "examine", "assess"].any
            (fun w => strContains ql w)) then 50 else 0)

/-- Stable insertion for descending sort by score: `x` goes after every
earlier element of greater or equal score, modelling Python's stable
`sorted(..., key=lambda x: x[1], reverse=True)`. -/
def insertByScoreDesc (x : String × Int) : List (String × Int) → List (String × Int)
  | [] => [x]
  | y :: ys => if x.2 ≤ y.2 then y :: insertByScoreDesc x ys else x :: y :: ys

/-- Stable descending sort by score. -/
def sortScoresDesc (l : List (String × Int)) : List (String × Int) :=
  l.foldl (fun acc x => insertByScoreDesc x acc) []

/-- The fixed `major_categories` set of `_filter_redundant_capabilities`. -/
def majorCategories : List String :=
  ["research", "comprehensive research", "summarize", "summary", "analyze", "analysis"]

/-- Research-family membership test of `_filter_redundant_capabilities`
(`'research' in cap`, a substring test). -/
def isResearchCap (c : String) : Bool := strContains c "research"

/-- Summary-family membership test (`'summariz' in cap or 'summary' in cap`). -/
def isSummaryCap (c : String) : Bool :=
  strContains c "summariz" || strContains c "summary"

/-- Analysis-family membership test (`'analyz' in cap or 'analysis' in cap`). -/
def isAnalysisCap (c : String) : Bool :=
  strContains c "analyz" || strContains c "analysis"

/-- Membership in any of the three capability families. -/
def isFamilyToken (c : String) : Bool :=
  isResearchCap c || isSummaryCap c || isAnalysisCap c

/-- Second half of `WorkflowAnalyzer._filter_redundant_capabilities` (split
out of `filterRedundantCapabilities` only to name the intermediate list):
pick the first member of each family as its representative, then append
every capability outside the fixed `major_categories` set that is not
already present. -/
def filterRedundantCore (caps2 : List String) : List String :=
  let researchCaps := caps2.filter isResearchCap
  let summaryCaps := caps2.filter isSummaryCap
  let analysisCaps := caps2.filter isAnalysisCap
  let filtered0 :=
    researchCaps.head?.toList ++ summaryCaps.head?.toList ++ analysisCaps.head?.toList
  caps2.foldl
    (fun acc c => if c ∉ majorCategories ∧ c ∉ acc then acc ++ [c] else acc)
    filtered0

/-- First half of `WorkflowAnalyzer._filter_redundant_capabilities` (split
out only to name the intermediate list): drop the exact token `'research'`
when `'comprehensive research'` is also present, then drop the exact token
`'search'` when a research token is present (`list.remove` drops the first
occurrence, as `List.erase` does). -/
def filterRedundantErase (capabilities : List String) : List String :=
  let caps1 :=
    if "research" ∈ capabilities ∧ "comprehensive research" ∈ capabilities then
      capabilities.erase "research"
    else capabilities
  if "search" ∈ caps1 ∧ ("research" ∈ caps1 ∨ "comprehensive research" ∈ caps1) then
    caps1.erase "search"
  else caps1

/-- Embeds `WorkflowAnalyzer._filter_redundant_capabilities`. The `query`
parameter is accepted but unused, exactly as in the source; the body is the
erase phase followed by the representative-picking phase. -/
def filterRedundantCapabilities (capabilities : List String) (query : String) : List String :=
  let _ := query
  filterRedundantCore (filterRedundantErase capabilities)

/-- Embeds `WorkflowAnalyzer._detect_required_capabilities`: score every
capability of the capability map against the lower-cased query, keep
positive scores, sort by descending score (stably), keep scores at or above
the fixed threshold `3.0` (`30` in tenths), and filter redundant
families. -/
def detectRequiredCapabilities (st : AnalyzerState) (query : String) : List String :=
  let ql := toLowerStr query
  let scored := (buildCapabilityMap st).filterMap (fun p =>
    let sc := scoreCapability p.1 ql
    if 0 < sc then some (p.1, sc) else none)
  let sorted := sortScoresDesc scored
  let required := (sorted.filter (fun p => 30 ≤ p.2)).map (·.1)
  filterRedundantCapabilities required ql

/-! ### WorkflowAnalyzer: best-extension selection and planning -/

/-- Bucket lookup in the capability map (`self.capability_map.get(cap, [])`). -/
def capabilityBucket (st : AnalyzerState) (cap : String) : List String :=
  (lookupAssoc (buildCapabilityMap st) cap).getD []

/-- Embeds `WorkflowAnalyzer._find_similar_capability_extensions`: collect
the buckets of every synonym and deduplicate. Python returns
`list(set(...))`, whose order is unspecified; the embedding keeps first
occurrences (none of the verified properties depends on that order). -/
def findSimilarCapabilityExtensions (st : AnalyzerState) (cap : String) : List String :=
  dedupFirst ((capabilitySynonyms cap).foldl
    (fun acc syn => acc ++ capabilityBucket st syn) [])

/-- Embeds the candidate score of
`WorkflowAnalyzer._find_best_extension_for_capability` for one extension:
base capability score, keyword matches against the lower-cased query,
priority bonus, and the specialization bonus `max(0, 10 - #capabilities) *
0.1` (the Nat subtraction models Python's `max(0, ...)` exactly; capability
and keyword counts use set semantics). In tenths fixed point: the source
constants `5.0`, `2.0` appear as `50`, `20`; `ec.priority * 2.0` is
`ec.priority * 2` because `priority` is already in tenths; the
specialization bonus `* 0.1` is `* 1`. -/
def extScoreForCapability (ec : ExtensionCapability) (cap ql : String) : Int :=
  (if cap ∈ ec.capabilities then 50 else 0)
  + 20 * (((dedupFirst ec.keywords).filter (fun kw => strContains ql kw)).length : Int)
  + ec.priority * 2
  + ((10 - (dedupFirst ec.capabilities).length : Nat) : Int) * 1

/-- Embeds `WorkflowAnalyzer._find_best_extension_for_capability`: score
all candidates and keep the first strict maximum above 0 (`best_score = 0`
with a strict `>` in the loop), returning `none` when no candidate scores
positively or there are no candidates at all. -/
def findBestExtensionForCapability (st : AnalyzerState) (cap query : String) : Option String :=
  let cands0 := capabilityBucket st cap
  let cands := if cands0.isEmpty then findSimilarCapabilityExtensions st cap else cands0
  if cands.isEmpty then none
  else
    (cands.foldl (fun (best : Option String × Int) extId =>
      let sc := extScoreForCapability (lookupExtD st extId) cap (toLowerStr query)
      if best.2 < sc then (some extId, sc) else best) (none, 0)).1

/-! ### WorkflowAnalyzer: pipeline flow optimisation -/

/-- Three-way classification of `_optimize_pipeline_flow`'s word-constraint
branch. -/
inductive ExtFlowClass where
  | research : ExtFlowClass
  | summary : ExtFlowClass
  | other : ExtFlowClass
deriving DecidableEq, Repr

/-- Size of the intersection of a capability set with a fixed list
(`sum(1 for cap in ext_cap.capabilities if cap in fixed)`, over a set). -/
def countCapsIn (caps fixed : List String) : Nat :=
  ((dedupFirst caps).filter (fun c => c ∈ fixed)).length

/-- Embeds the per-extension classification of the word-constraint branch of
`_optimize_pipeline_flow`: compare research-flavoured versus
summary-flavoured capability counts, breaking ties by category and
keywords. -/
def classifyExt (st : AnalyzerState) (extId : String) : ExtFlowClass :=
  let ec := lookupExtD st extId
  let researchScore := countCapsIn ec.capabilities
    ["research", "search", "investigate", "comprehensive research"]
  let summaryScore := countCapsIn ec.capabilities
    ["summarize", "summary", "explain", "simplify"]
  if summaryScore < researchScore then .research
  else if researchScore < summaryScore then .summary
  else if ec.category ∈ ["research", "investigation"]
      ∨ (["research", "investigate"].any (fun kw => kw ∈ ec.keywords)) then .research
  else if ec.category ∈ ["content_analysis", "summary"]
      ∨ (["summarize", "summary", "explain"].any (fun kw => kw ∈ ec.keywords)) then .summary
  else .other

/-- Accumulating partition of the word-constraint branch: one pass over the
pipeline appending each extension to its class bucket. -/
def partitionByClass (st : AnalyzerState) (pipeline : List String) :
    List String × List String × List String :=
  pipeline.foldl
    (fun acc e =>
      match classifyExt st e with
      | .research => (acc.1 ++ [e], acc.2.1, acc.2.2)
      | .summary => (acc.1, acc.2.1 ++ [e], acc.2.2)
      | .other => (acc.1, acc.2.1, acc.2.2 ++ [e]))
    ([], [], [])

/-- Compatibility score of the chaining loop:
`len(last_output_types & input_types) (+ 0.5 if 'general' accepted)`, in
tenths fixed point (each shared type contributes `10`, the `general` bonus
`0.5` appears as `5`). -/
def compatScore (st : AnalyzerState) (lastOuts : List String) (extId : String) : Int :=
  let ec := lookupExtD st extId
  10 * (countCapsIn lastOuts ec.input_types : Int)
  + (if "general" ∈ ec.input_types then 5 else 0)

/-- Running best score of the chaining loop's fold (`best_compatibility`,
starting at 0 when nothing has been selected). -/
def pickBestScore : Option (String × Int) → Int
  | some x => x.2
  | none => 0

/-- Fold of the chaining loop's candidate selection: first strict maximum
with score above the running best, starting from `best_compatibility = 0`. -/
def pickBestCompat (st : AnalyzerState) (lastOuts : List String) :
    Option (String × Int) → List String → Option (String × Int)
  | acc, [] => acc
  | acc, e :: es =>
    pickBestCompat st lastOuts
      (if pickBestScore acc < compatScore st lastOuts e
       then some (e, compatScore st lastOuts e) else acc) es

/-- Chaining loop of the general branch of `_optimize_pipeline_flow`:
repeatedly append the unplaced extension most compatible with the previous
extension's output types, falling back to the first remaining one. -/
def chainFlow (st : AnalyzerState) (ordered : List String) :
    List String → List String
  | [] => ordered
  | r :: rs =>
    let lastOuts :=
      match ordered.getLast? with
      | some l => (lookupExtD st l).output_types
      | none => ["general"]
    match hp : pickBestCompat st lastOuts none (r :: rs) with
    | some p =>
      have hmem : p.1 ∈ r :: rs := by
        have key : ∀ (l : List String) (acc : Option (String × Int)) (q : String × Int),
            pickBestCompat st lastOuts acc l = some q → acc = some q ∨ q.1 ∈ l := by
          intro l
          induction l with
          | nil => intro acc q h; exact Or.inl h
          | cons e es ih =>
            intro acc q h
            simp only [pickBestCompat] at h
            rcases ih _ q h with h' | h'
            · by_cases hc : pickBestScore acc < compatScore st lastOuts e
              · rw [if_pos hc] at h'
                have hqe : (e, compatScore st lastOuts e) = q := Option.some.inj h'
                exact Or.inr (by rw [← hqe]; exact List.mem_cons_self e es)
              · rw [if_neg hc] at h'
                exact Or.inl h'
            · exact Or.inr (List.mem_cons_of_mem _ h')
        rcases key (r :: rs) none p hp with h | h
        · exact absurd h (by simp)
        · exact h
      chainFlow st (ordered ++ [p.1]) ((r :: rs).erase p.1)
    | none => chainFlow st (ordered ++ [r]) rs
termination_by l => l.length
decreasing_by
  · rw [List.length_erase_of_mem hmem]
    simp
  · simp

/-- Seed selection of the general branch: the first extension accepting
`query` or `general` input, if any. -/
def seedPick (st : AnalyzerState) (pipeline : List String) : Option String :=
  pipeline.find? (fun e =>
    "query" ∈ (lookupExtD st e).input_types ∨ "general" ∈ (lookupExtD st e).input_types)

/-- Embeds `WorkflowAnalyzer._optimize_pipeline_flow`: pipelines of at most
one step are returned unchanged; under an explicit word-count constraint the
pipeline is reordered research-class, then unclassified, then
summary-class; otherwise the input/output-compatibility chaining runs. -/
def optimizePipelineFlow (st : AnalyzerState) (pipeline : List String) (query : String) :
    List String :=
  if pipeline.length ≤ 1 then pipeline
  else if hasWordConstraints query then
    let parts := partitionByClass st pipeline
    parts.1 ++ parts.2.2 ++ parts.2.1
  else
    match seedPick st pipeline with
    | some e => chainFlow st [e] (pipeline.erase e)
    | none => chainFlow st [] pipeline

/-! ### WorkflowAnalyzer: planning, complexity and the analysis record -/

/-- Result triple of `_plan_dynamic_workflow`; `confidence10` is the
confidence in tenths fixed point (source `0.8` is `8`, and so on). -/
structure WorkflowPlanResult where
  pipeline : List String
  confidence10 : Int
  reasoning : String
deriving DecidableEq, Repr

/-- Joining of reasoning fragments (`' → '.join(parts)`). -/
def joinArrow (parts : List String) : String := String.intercalate " → " parts

/-- Embeds `WorkflowAnalyzer._plan_dynamic_workflow`: map every required
capability to its best extension (collecting reasoning, subtracting 0.2
confidence per unmapped capability), deduplicate preserving order, optimise
the flow, and clamp confidence from below at 0.1. Confidence is in tenths
fixed point: source `0.8` is `8`, `0.2` is `2`, `max(0.1, ·)` is
`max 1 ·`. -/
def planDynamicWorkflow (st : AnalyzerState) (query : String) (required : List String) :
    WorkflowPlanResult :=
  let step := required.foldl
    (fun (acc : List String × Int × List String) cap =>
      match findBestExtensionForCapability st cap query with
      | some best => (acc.1 ++ [best], acc.2.1, acc.2.2 ++ [cap ++ " → " ++ best])
      | none => (acc.1, acc.2.1 - 2, acc.2.2 ++ [cap ++ " → no suitable extension"]))
    ([], 8, [])
  let optimized := dedupFirst step.1
  let finalPipeline := optimizePipelineFlow st optimized query
  { pipeline := finalPipeline,
    confidence10 := max 1 step.2.1,
    reasoning := "Dynamic pipeline: " ++ joinArrow step.2.2
      ++ " (optimized: " ++ joinArrow finalPipeline ++ ")" }

/-- Embeds `WorkflowAnalyzer._estimate_complexity`: capability count, word
count bonus (+2 over twenty words, else +1 over ten), +2 for a parallel
connective; mapped to simple (≤ 2), moderate (≤ 4) or complex (> 4). -/
def estimateComplexity (capabilities : List String) (query : String) : String :=
  let base := capabilities.length
  let wBonus := if 20 < wordCount query then 2 else if 10 < wordCount query then 1 else 0
  let pBonus := if searchAny parallelConnectors (toLowerStr query) then 2 else 0
  let total := base + wBonus + pBonus
  if total ≤ 2 then "simple" else if total ≤ 4 then "moderate" else "complex"

/-- The `WorkflowAnalysis` dataclass. -/
structure WorkflowAnalysis where
  requires_workflow : Bool
  primary_intent : String
  secondary_intents : List String
  complexity : String
  confidence : ℚ
  suggested_pipeline : List String
  reasoning : String
deriving DecidableEq, Repr

/-- Embeds `WorkflowAnalyzer.analyze_query`: detect required capabilities,
decide whether a workflow is needed (more than one capability or an explicit
indicator), and produce either the fixed single-capability analysis
(confidence 0.9) or the planned multi-step analysis. -/
def analyzeQuery (st : AnalyzerState) (query : String) : WorkflowAnalysis :=
  let required := detectRequiredCapabilities st query
  let requires := decide (1 < required.length) || hasWorkflowIndicators query
  if requires then
    let plan := planDynamicWorkflow st query required
    { requires_workflow := true,
      primary_intent := required.headD "general",
      secondary_intents := required.tail,
      complexity := estimateComplexity required query,
      confidence := tenthsToRat plan.confidence10,
      suggested_pipeline := plan.pipeline,
      reasoning := plan.reasoning }
  else
    let primary := required.headD "general"
    let best := findBestExtensionForCapability st primary query
    { requires_workflow := false,
      primary_intent := primary,
      secondary_intents := [],
      complexity := "simple",
      confidence := tenthsToRat 9,
      suggested_pipeline := match best with | some b => [b] | none => [],
      reasoning := "Single capability '" ++ primary ++ "' detected, no workflow needed" }

/-! ### Workflow execution: the shared sequential loop

`WorkflowExecutor.execute_sequential_workflow` and
`OptimizedWorkflowExecutor.execute_sequential_workflow` run the identical
loop (the cold strategy spawns one process per step, the warm strategy uses
the pool); the two differ only in how a single step is executed, which
crosses a process boundary and is abstracted here as a `runStep` function.
Progress events, wall-clock times and the random workflow id are
observational side channels and are not part of the embedded state. -/

/-- Primitive JSON-ish payload values. -/
inductive JPrim where
  | pStr : String → JPrim
  | pBool : Bool → JPrim
  | pInt : Int → JPrim
deriving DecidableEq, Repr

/-- Payload values of a step's data dictionary. One level of list and
dictionary nesting suffices here: the executor's merge logic never inspects
values, it only copies them around whole. -/
inductive JValue where
  | prim : JPrim → JValue
  | vList : List JPrim → JValue
  | vDict : List (String × JPrim) → JValue
deriving DecidableEq, Repr

/-- A Python dict of payload values (insertion ordered). -/
abbrev DataDict : Type := List (String × JValue)

/-- Dictionary read, modelling `d.get(k)`. -/
def dictGet (d : DataDict) (k : String) : Option JValue := lookupAssoc d k

/-- Dictionary read with default, modelling `d.get(k, default)`. -/
def dictGetD (d : DataDict) (k : String) (v : JValue) : JValue := (dictGet d k).getD v

/-- Dictionary write, modelling `d[k] = v`. -/
def dictSet (d : DataDict) (k : String) (v : JValue) : DataDict := updateAssoc d k v

/-- Dictionary merge, modelling `{**a, **b}`: keys of `a` keep their
positions (with values overridden by `b` where both are present), keys only
in `b` are appended in `b`'s order. -/
def dictMerge (a b : DataDict) : DataDict :=
  (a.map (fun p => (p.1, dictGetD b p.1 p.2)))
    ++ b.filter (fun p => (dictGet a p.1).isNone)

/-- The `preserved_data` dictionary built after every successful step from
the ORIGINAL workflow input `data` (both executors, identical code):
credentials, provider and model selection, question flag and conversation
history, with their literal defaults. -/
def preservedData (data : DataDict) : DataDict :=
  [("browserApiKeys", dictGetD data "browserApiKeys" (.vDict [])),
   ("selectedProvider", dictGetD data "selectedProvider" (.prim (.pStr "anthropic"))),
   ("selectedModel", dictGetD data "selectedModel"
      (.prim (.pStr "claude-3-7-sonnet-latest"))),
   ("isQuestion", dictGetD data "isQuestion" (.prim (.pBool false))),
   ("conversationHistory", dictGetD data "conversationHistory" (.vList []))]

/-- The context-merge rule applied after a successful step:
`current_data = {**preserved_data, **step_result.data}` followed by the
explicit query override `if 'query' in step_result.data: current_data['query']
= step_result.data['query']`. -/
def mergeAfterStep (data stepData : DataDict) : DataDict :=
  let merged := dictMerge (preservedData data) stepData
  match dictGet stepData "query" with
  | some v => dictSet merged "query" v
  | none => merged

/-- The `WorkflowStep` dataclass (shared by both executor modules). -/
structure WorkflowStep where
  extension_id : String
  action : String
  parameters : DataDict
  input_source : String
deriving DecidableEq, Repr

/-- The `StepResult` dataclass. `execution_time` is wall-clock time in the
source; it is carried as an abstract number and never interpreted. -/
structure StepResult where
  extension_id : String
  success : Bool
  data : DataDict
  execution_time : Nat
  error : Option String
deriving DecidableEq, Repr

/-- The dictionary returned by `execute_sequential_workflow`, minus the
wall-clock `total_time` and the random `workflow_id`. -/
structure WorkflowOutput where
  success : Bool
  error : Option String
  results : List StepResult
  final_result : Option DataDict
deriving DecidableEq, Repr

/-- Failure message of the early return:
`f"Step {step.extension_id} failed: {step_result.error}"` (a `None` error
prints as `"None"`). -/
def stepFailMsg (s : WorkflowStep) (r : StepResult) : String :=
  "Step " ++ s.extension_id ++ " failed: " ++ (match r.error with
    | some e => e
    | none => "None")

/-- The step loop of `execute_sequential_workflow`, parameterised by the
step-execution strategy `runStep` (cold `_execute_step` or warm
`_execute_step_optimized`). `orig` is the original workflow input `data`
(used by the merge rule), `current` the running context. On the first
failed step the loop stops and returns the results gathered so far. -/
def execSeqAux (runStep : WorkflowStep → DataDict → StepResult) (orig : DataDict) :
    List WorkflowStep → DataDict → WorkflowOutput
  | [], current =>
    { success := true, error := none, results := [], final_result := some current }
  | s :: rest, current =>
    let r := runStep s current
    if r.success then
      let out := execSeqAux runStep orig rest (mergeAfterStep orig r.data)
      { out with results := r :: out.results }
    else
      { success := false, error := some (stepFailMsg s r),
        results := [r], final_result := none }

/-- Embeds `execute_sequential_workflow` of both executors (they share this
loop verbatim): run the steps in order from a copy of the input data,
merging after every success, aborting at the first failure. -/
def execSequentialWorkflow (runStep : WorkflowStep → DataDict → StepResult)
    (steps : List WorkflowStep) (data : DataDict) : WorkflowOutput :=
  execSeqAux runStep data steps data

/-! ### SmartExtensionRouter -/

/-- One manifest entry of `master.json` as read by the router (fields it
consults). `priority` is the raw manifest priority (default 5). -/
structure MasterExt where
  id : String
  name : String
  enabled : Bool
  keywords : List String
  category : String
  priority : Int
deriving DecidableEq, Repr

/-- The loaded `master.json` (fields the embedded paths consult). -/
structure MasterConfig where
  extensions : List MasterExt
deriving DecidableEq, Repr

/-- The `RoutingResult` dataclass. -/
structure RoutingResult where
  extension_id : String
  confidence : ℚ
  reason : String
  matched_keywords : List String
  is_workflow : Bool
deriving DecidableEq, Repr

/-- Outcome of `route_request`: either a single-extension `RoutingResult` or
a workflow dictionary produced by the downstream orchestration. -/
inductive RouteOutcome where
  | single : RoutingResult → RouteOutcome
  | workflow : Bool → Option DataDict → RouteOutcome
deriving DecidableEq, Repr

/-- The enabled sublist of the loaded manifest (`ext.get('enabled', True)`
filters). An unloadable or missing manifest (`_load_master_config`
returning `None`) is the `none` case. -/
def enabledExtensions : Option MasterConfig → List MasterExt
  | none => []
  | some c => c.extensions.filter (·.enabled)

/-- Embeds `SmartExtensionRouter._find_best_fallback_extension`: `'unknown'`
when the manifest is unloaded or has no enabled worker, otherwise the first
strict-maximum of priority plus bonuses for general-purpose keywords and
categories (with `best_score = 0` and a strict `>`), defaulting to the
first enabled worker. -/
def findBestFallbackExtension (cfg : Option MasterConfig) : String :=
  match cfg with
  | none => "unknown"
  | some c =>
    let enabled := c.extensions.filter (·.enabled)
    match enabled with
    | [] => "unknown"
    | e0 :: _ =>
      let best := enabled.foldl
        (fun (acc : Option String × Int) ext =>
          let kws := ext.keywords.map toLowerStr
          let sc := ext.priority
            + (if ["general", "summary", "help", "topic", "content"].any
                  (fun g => g ∈ kws) then 5 else 0)
            + (if toLowerStr ext.category ∈ ["content_analysis", "general", "utility"]
               then 3 else 0)
          if acc.2 < sc then (some ext.id, sc) else acc)
        (none, 0)
      best.1.getD e0.id

/-- Embeds `SmartExtensionRouter._get_fallback_result`. -/
def getFallbackResult (cfg : Option MasterConfig) (reason : String) : RoutingResult :=
  { extension_id := findBestFallbackExtension cfg,
    confidence := 0,
    reason := "Fallback: " ++ reason,
    matched_keywords := [],
    is_workflow := false }

/-- Embeds the configuration-checking head of
`SmartExtensionRouter.route_request`; once a loaded manifest with at least
one enabled worker is in hand, control passes to the workflow /
embedding / rule-based routing, abstracted as `downstream` (it spans
machine-learned similarity models and process execution). -/
def routeRequest (cfg : Option MasterConfig)
    (downstream : List MasterExt → RouteOutcome) : RouteOutcome :=
  match cfg with
  | none => .single (getFallbackResult none "Master config not loaded")
  | some c =>
    let enabled := c.extensions.filter (·.enabled)
    if enabled.isEmpty then
      .single (getFallbackResult (some c) "No enabled extensions found")
    else downstream enabled

/-! ### OptimizedWorkflowExecutor: the warm process pool

`ExtensionProcess` and the pool dictionary `warm_processes`. A live OS
process is identified by an abstract process identity `pid` drawn from a
counter (two distinct spawns never share an identity); the worker sitting
behind a process boundary is abstracted as a `respond` oracle mapping the
process identity to the one-line response the daemon sends back (the
request payload is fixed by the surrounding theorem statements). -/

/-- The mutable state of one `ExtensionProcess`: its script path, the
identity of the underlying OS process, liveness (`poll() is None`) and the
busy flag. The `last_used` wall-clock timestamp is not modelled. -/
structure ExtProc where
  script : String
  pid : Nat
  alive : Bool
  is_busy : Bool
deriving DecidableEq, Repr

/-- The pool state: `warm_processes` (`extension_id → ExtensionProcess`)
plus the allocator for fresh process identities. -/
structure PoolState where
  warm : List (String × ExtProc)
  nextPid : Nat
deriving DecidableEq, Repr

/-- The parsed one-line response of a daemon worker
(`{success: bool, ...}` — the payload is carried opaquely). -/
structure ProcResponse where
  success : Bool
  payload : DataDict
deriving DecidableEq, Repr

/-- Embeds `ExtensionProcess._start_process` (the constructor's spawn):
a fresh live, idle process on the given script. -/
def startProcess (script : String) (pid : Nat) : ExtProc :=
  { script := script, pid := pid, alive := true, is_busy := false }

/-- Embeds `OptimizedWorkflowExecutor._get_or_create_process`: reuse the
pooled process when it is healthy and idle; otherwise look the script up in
the registry, spawn a fresh process and store it under the identifier
(raising when the extension is unknown). -/
def getOrCreateProcess (registry : List (String × String)) (st : PoolState)
    (extId : String) : Except String (ExtProc × PoolState) :=
  let createNew : Except String (ExtProc × PoolState) :=
    match lookupAssoc registry extId with
    | none => .error ("Extension not found: " ++ extId)
    | some script =>
      let p := startProcess script st.nextPid
      .ok (p, { warm := updateAssoc st.warm extId p, nextPid := st.nextPid + 1 })
  match lookupAssoc st.warm extId with
  | some p => if p.alive && !p.is_busy then .ok (p, st) else createNew
  | none => createNew

/-- Embeds `ExtensionProcess.execute`: restart the process if it died since
it was obtained, mark it busy for the duration of the exchange (the busy
flag is reset in the `finally` block, so the post-state is idle), and
return the daemon's response. `respond` abstracts the
write-request/read-response exchange with the worker; a worker-side
failure, empty response or unparsable line is a `success := false`
response. -/
def procExecute (respond : Nat → ProcResponse) (p : ExtProc) (nextPid : Nat) :
    ProcResponse × ExtProc × Nat :=
  let restarted :=
    if p.alive then (p, nextPid) else (startProcess p.script nextPid, nextPid + 1)
  let pr := restarted.1
  (respond pr.pid, { pr with is_busy := false }, restarted.2)

/-- One pooled call as `_execute_step_optimized` performs it: obtain (or
create) the pooled process for the identifier, run the exchange on it, and
store the (possibly restarted) process object back in the pool. -/
def callExtension (registry : List (String × String)) (respond : Nat → ProcResponse)
    (st : PoolState) (extId : String) : Except String (ProcResponse × PoolState) :=
  match getOrCreateProcess registry st extId with
  | .error e => .error e
  | .ok (p, st1) =>
    let r := procExecute respond p st1.nextPid
    .ok (r.1, { warm := updateAssoc st1.warm extId r.2.1, nextPid := r.2.2 })

/-- Decidable equality of `Except` results (needed to evaluate pool calls
on concrete inputs). -/
instance {E A : Type} [DecidableEq E] [DecidableEq A] : DecidableEq (Except E A) :=
  fun x y =>
    match x, y with
    | .ok a, .ok b =>
      if h : a = b then isTrue (by rw [h]) else isFalse (fun hc => by cases hc; exact h rfl)
    | .error a, .error b =>
      if h : a = b then isTrue (by rw [h]) else isFalse (fun hc => by cases hc; exact h rfl)
    | .ok _, .error _ => isFalse (fun hc => by cases hc)
    | .error _, .ok _ => isFalse (fun hc => by cases hc)

/-! ### Concrete instances used in the closed theorems

A small discovered state in the shape of the repository's own example
(`research-agent` and `topic-agent`), concrete workflow data, and a concrete
pool; these instantiate the universally quantified theorems below. -/

/-- A research-flavoured worker as discovery would produce it. -/
def extResearchEx : ExtensionCapability :=
  { extension_id := "research-agent",
    capabilities := ["research", "investigate"],
    keywords := ["research", "investigate"],
    intents := ["deep_research"],
    category := "research",
    priority := 8,
    input_types := ["query", "topic", "keywords"],
    output_types := ["data", "information", "sources"] }

/-- A summarize-flavoured worker as discovery would produce it. -/
def extTopicEx : ExtensionCapability :=
  { extension_id := "topic-agent",
    capabilities := ["summarize", "explain"],
    keywords := ["summarize", "explain"],
    intents := ["summarize_content"],
    category := "content_analysis",
    priority := 7,
    input_types := ["text", "data", "information"],
    output_types := ["summary", "explanation", "simplified_text"] }

/-- A state with the single research worker. -/
def stResearchEx : AnalyzerState := ⟨[("research-agent", extResearchEx)]⟩

/-- A two-worker state listing the summarizer first in the manifest. -/
def stTwoEx : AnalyzerState :=
  ⟨[("topic-agent", extTopicEx), ("research-agent", extResearchEx)]⟩

/-- A twenty-one-word query with one detected capability and no workflow
indicator. -/
def q21Ex : String := "research a b c d e f g h i j k l m n o p q r s t"

/-- Original workflow input data carrying a credential map. -/
def origDataEx : DataDict :=
  [("query", .prim (.pStr "q0")),
   ("browserApiKeys", .vDict [("anthropic", .pStr "sk-orig")])]

/-- A step output that collides with the protected ambient field
`browserApiKeys`. -/
def corruptStepData : DataDict :=
  [("browserApiKeys", .prim (.pStr "CORRUPT")), ("summary", .prim (.pStr "s"))]

/-- A step-execution strategy whose (single) step succeeds and returns
`corruptStepData`. -/
def corruptRun : WorkflowStep → DataDict → StepResult :=
  fun s _ => ⟨s.extension_id, true, corruptStepData, 0, none⟩

/-- The single pipeline step driving `corruptRun`. -/
def stepEvilEx : WorkflowStep := ⟨"evil-agent", "process_page", [], "user_query"⟩

/-- A two-step strategy: `alpha` succeeds, every other step fails. -/
def runStepsEx : WorkflowStep → DataDict → StepResult :=
  fun s _ =>
    if s.extension_id = "alpha" then ⟨"alpha", true, [("x", .prim (.pInt 1))], 0, none⟩
    else ⟨s.extension_id, false, [], 0, some "boom"⟩

/-- First pipeline step of the failure scenario. -/
def stepAlphaEx : WorkflowStep := ⟨"alpha", "process_page", [], "user_query"⟩

/-- Second (failing) pipeline step of the failure scenario. -/
def stepBetaEx : WorkflowStep := ⟨"beta", "process_page", [], "previous_step"⟩

/-- The successful `StepResult` of `alpha`. -/
def resAlphaEx : StepResult := ⟨"alpha", true, [("x", .prim (.pInt 1))], 0, none⟩

/-- The failing `StepResult` of `beta`. -/
def resBetaEx : StepResult := ⟨"beta", false, [], 0, some "boom"⟩

/-- The running context after `alpha` merges into `origDataEx`. -/
def mergedAfterAlphaEx : DataDict :=
  [("browserApiKeys", .vDict [("anthropic", .pStr "sk-orig")]),
   ("selectedProvider", .prim (.pStr "anthropic")),
   ("selectedModel", .prim (.pStr "claude-3-7-sonnet-latest")),
   ("isQuestion", .prim (.pBool false)),
   ("conversationHistory", .vList []),
   ("x", .prim (.pInt 1))]

/-- A registry resolving the worker `w`. -/
def regW : List (String × String) := [("w", "w.py")]

/-- A worker oracle that always answers successfully. -/
def respondW : Nat → ProcResponse := fun _ => ⟨true, [("ok", .prim (.pBool true))]⟩

/-- A pool whose process for `w` has died (killed externally) and whose
process for `v` is alive. -/
def poolW : PoolState :=
  ⟨[("w", ⟨"w.py", 0, false, false⟩), ("v", ⟨"v.py", 1, true, false⟩)], 7⟩

/-- An arbitrary downstream router used to instantiate `routeRequest`. -/
def downstreamEx : List MasterExt → RouteOutcome :=
  fun _ => .workflow false none

/-! ### Helper lemmas -/

/-- Two updates of the same key collapse to the last one. -/
theorem updateAssoc_updateAssoc {α : Type} (m : List (String × α)) (k : String) (v w : α) :
    updateAssoc (updateAssoc m k v) k w = updateAssoc m k w := by
  induction m with
  | nil => simp [updateAssoc]
  | cons p rest ih =>
    by_cases h : p.1 = k
    · simp [updateAssoc, h]
    · simp [updateAssoc, h, ih]

/-- Updating one key leaves every other key's binding unchanged. -/
theorem lookupAssoc_updateAssoc_ne {α : Type} (m : List (String × α)) (k k' : String)
    (v : α) (h : k' ≠ k) : lookupAssoc (updateAssoc m k v) k' = lookupAssoc m k' := by
  have hkk : (k == k') = false := beq_false_of_ne (fun hk => h hk.symm)
  induction m with
  | nil => simp [updateAssoc, lookupAssoc, List.find?, hkk]
  | cons p rest ih =>
    obtain ⟨a, b⟩ := p
    by_cases hp : a = k
    · subst hp
      simp [updateAssoc, lookupAssoc, List.find?, hkk]
    · by_cases hq : a = k'
      · subst hq
        simp [updateAssoc, hp, lookupAssoc, List.find?]
      · have hne : (a == k') = false := beq_false_of_ne hq
        simp only [updateAssoc, if_neg hp, lookupAssoc, List.find?, hne] at ih ⊢
        exact ih

/-- A removed key is absent. -/
theorem lookupAssoc_removeAssoc_self {α : Type} (m : List (String × α)) (k : String) :
    lookupAssoc (removeAssoc m k) k = none := by
  induction m with
  | nil => simp [removeAssoc, lookupAssoc, List.find?]
  | cons p rest ih =>
    by_cases hp : p.1 = k
    · rw [removeAssoc] at ih ⊢
      simpa [hp] using ih
    · have hne : (p.1 == k) = false := beq_false_of_ne hp
      rw [removeAssoc] at ih ⊢
      simp [hp, lookupAssoc, List.find?, hne]

/-- Appending a failing step to a fully successful prefix: the loop runs the
prefix, fails on `s`, and never looks at `post`. -/
theorem execSeqAux_append_fail (runStep : WorkflowStep → DataDict → StepResult)
    (orig : DataDict) (s : WorkflowStep) (post : List WorkflowStep) :
    ∀ (pre : List WorkflowStep) (cur : DataDict) (R : List StepResult) (d' : DataDict),
      execSeqAux runStep orig pre cur = ⟨true, none, R, some d'⟩ →
      (runStep s d').success = false →
      execSeqAux runStep orig (pre ++ s :: post) cur =
        ⟨false, some (stepFailMsg s (runStep s d')), R ++ [runStep s d'], none⟩ := by
  intro pre
  induction pre with
  | nil =>
    intro cur R d' h hf
    simp only [execSeqAux, WorkflowOutput.mk.injEq] at h
    obtain ⟨-, -, hR, hd⟩ := h
    cases hR
    cases Option.some.inj hd
    simp [execSeqAux, hf]
  | cons p ps ih =>
    intro cur R d' h hf
    by_cases hs : (runStep p cur).success
    · simp only [execSeqAux, hs, if_true] at h
      rcases hout : execSeqAux runStep orig ps (mergeAfterStep orig (runStep p cur).data)
        with ⟨os, oe, orr, ofr⟩
      rw [hout] at h
      simp only [WorkflowOutput.mk.injEq] at h
      obtain ⟨ho1, ho2, ho3, ho4⟩ := h
      have hps : execSeqAux runStep orig ps (mergeAfterStep orig (runStep p cur).data) =
          ⟨true, none, orr, some d'⟩ := by
        rw [hout, ho1, ho2, ho4]
      have hrec := ih (mergeAfterStep orig (runStep p cur).data) orr d' hps hf
      rw [List.cons_append]
      simp only [execSeqAux, hs, if_true]
      rw [hrec, ← ho3]
      simp
    · simp only [execSeqAux, hs, if_false, Bool.false_eq_true, WorkflowOutput.mk.injEq] at h
      exact absurd h.1 (by simp)

/-- Auxiliary partition lemma for the word-constraint reordering: the
accumulated partition equals the three class filters. -/
theorem partitionByClass_fold (st : AnalyzerState) :
    ∀ (l : List String) (a b c : List String),
      l.foldl
        (fun acc e =>
          match classifyExt st e with
          | .research => (acc.1 ++ [e], acc.2.1, acc.2.2)
          | .summary => (acc.1, acc.2.1 ++ [e], acc.2.2)
          | .other => (acc.1, acc.2.1, acc.2.2 ++ [e]))
        (a, b, c) =
      (a ++ l.filter (fun e => classifyExt st e == .research),
       b ++ l.filter (fun e => classifyExt st e == .summary),
       c ++ l.filter (fun e => classifyExt st e == .other)) := by
  intro l
  induction l with
  | nil => intro a b c; simp
  | cons e es ih =>
    intro a b c
    simp only [List.foldl_cons]
    cases hce : classifyExt st e with
    | research =>
      simp only [hce]
      rw [ih]
      simp [List.filter_cons, hce]
    | summary =>
      simp only [hce]
      rw [ih]
      simp [List.filter_cons, hce]
    | other =>
      simp only [hce]
      rw [ih]
      simp [List.filter_cons, hce]

/-- The partition of `_optimize_pipeline_flow`'s word-constraint branch is
exactly the triple of class filters. -/
theorem partitionByClass_eq (st : AnalyzerState) (pipeline : List String) :
    partitionByClass st pipeline =
      (pipeline.filter (fun e => classifyExt st e == .research),
       pipeline.filter (fun e => classifyExt st e == .summary),
       pipeline.filter (fun e => classifyExt st e == .other)) := by
  have h := partitionByClass_fold st pipeline [] [] []
  simp only [List.nil_append] at h
  exact h

/-- The confidence accumulated by `_plan_dynamic_workflow`'s loop equals the
starting confidence minus 0.2 (`2` tenths) per capability with no suitable
extension. -/
theorem planFold_confidence (st : AnalyzerState) (query : String) :
    ∀ (caps : List String) (pl : List String) (c0 : Int) (rs : List String),
      (caps.foldl
        (fun (acc : List String × Int × List String) cap =>
          match findBestExtensionForCapability st cap query with
          | some best => (acc.1 ++ [best], acc.2.1, acc.2.2 ++ [cap ++ " → " ++ best])
          | none => (acc.1, acc.2.1 - 2, acc.2.2 ++ [cap ++ " → no suitable extension"]))
        (pl, c0, rs)).2.1
      = c0 - 2 * ((caps.filter
          (fun c => (findBestExtensionForCapability st c query).isNone)).length : Int) := by
  intro caps
  induction caps with
  | nil => intro pl c0 rs; simp
  | cons cap rest ih =>
    intro pl c0 rs
    simp only [List.foldl_cons]
    cases hb : findBestExtensionForCapability st cap query with
    | some best =>
      simp only [hb]
      rw [ih]
      simp [List.filter_cons, hb]
    | none =>
      simp only [hb]
      rw [ih]
      simp only [List.filter_cons, hb, Option.isNone_none, if_pos, List.length_cons]
      push_cast
      ring

/-- Elements appended by `_filter_redundant_capabilities`' final loop never
satisfy a predicate that only holds on `majorCategories`; hence the filtered
view of its result is the filtered view of its starting accumulator. -/
theorem redundantFold_filter (P : String → Bool)
    (hP : ∀ c, P c = true → c ∈ majorCategories) :
    ∀ (l acc : List String),
      (l.foldl (fun acc c => if c ∉ majorCategories ∧ c ∉ acc then acc ++ [c] else acc)
        acc).filter P = acc.filter P := by
  intro l
  induction l with
  | nil => intro acc; rfl
  | cons d ds ih =>
    intro acc
    simp only [List.foldl_cons]
    by_cases hd : d ∉ majorCategories ∧ d ∉ acc
    · rw [if_pos hd, ih, List.filter_append]
      have hPd : P d = false := by
        cases hPd : P d
        · rfl
        · exact absurd (hP d hPd) hd.1
      simp [List.filter_cons, hPd]
    · rw [if_neg hd]
      exact ih acc

/-- The final loop of `_filter_redundant_capabilities` only grows its
accumulator. -/
theorem redundantFold_mono (x : String) :
    ∀ (l acc : List String), x ∈ acc →
      x ∈ l.foldl (fun acc c => if c ∉ majorCategories ∧ c ∉ acc then acc ++ [c] else acc)
        acc := by
  intro l
  induction l with
  | nil => intro acc h; exact h
  | cons d ds ih =>
    intro acc h
    simp only [List.foldl_cons]
    by_cases hd : d ∉ majorCategories ∧ d ∉ acc
    · rw [if_pos hd]
      exact ih _ (List.mem_append_left _ h)
    · rw [if_neg hd]
      exact ih _ h

/-- Every scanned element outside `majorCategories` ends up in the final
loop's accumulator. -/
theorem redundantFold_mem (c : String) (hc : c ∉ majorCategories) :
    ∀ (l acc : List String), c ∈ l →
      c ∈ l.foldl (fun acc c => if c ∉ majorCategories ∧ c ∉ acc then acc ++ [c] else acc)
        acc := by
  intro l
  induction l with
  | nil => intro acc h; cases h
  | cons d ds ih =>
    intro acc h
    simp only [List.foldl_cons]
    rcases List.mem_cons.mp h with rfl | hmem
    · by_cases hd : c ∉ majorCategories ∧ c ∉ acc
      · rw [if_pos hd]
        exact redundantFold_mono c ds _ (List.mem_append_right _ (List.mem_singleton.mpr rfl))
      · rw [if_neg hd]
        have hcacc : c ∈ acc := by
          by_contra hno
          exact hd ⟨hc, hno⟩
        exact redundantFold_mono c ds _ hcacc
    · by_cases hd : d ∉ majorCategories ∧ d ∉ acc
      · rw [if_pos hd]
        exact ih _ hmem
      · rw [if_neg hd]
        exact ih _ hmem

/-! ### Claim theorems -/

/-- Claim C1 (code evaluation at the failing input): the context-merge rule
`{**preserved_data, **step_result.data}` lets a step output that carries the
ambient key `browserApiKeys` overwrite the credentials from the original
workflow input — after a successful one-step run whose output contains
`browserApiKeys`, the merged running context holds the step's value
`"CORRUPT"`, not the original credential map. This contradicts the claim
that the ambient fields always equal their original values even when the
step output collides, and contradicts the source's own `Preserve essential
workflow data` comment (whose explicit `query` re-override is redundant
under the implemented merge order and only meaningful under the reversed
one). -/
theorem ambient_field_overwritten_by_colliding_step_output :
    dictGet origDataEx "browserApiKeys" = some (.vDict [("anthropic", .pStr "sk-orig")]) ∧
    dictGet corruptStepData "browserApiKeys" = some (.prim (.pStr "CORRUPT")) ∧
    ((execSequentialWorkflow corruptRun [stepEvilEx] origDataEx).final_result.map
        (fun d => dictGet d "browserApiKeys"))
      = some (some (.prim (.pStr "CORRUPT"))) ∧
    (execSequentialWorkflow corruptRun [stepEvilEx] origDataEx).success = true := by
  decide

/-- Claim C2: in `execute_sequential_workflow` (cold and warm executors run
the identical loop), if every step of `pre` succeeds (yielding results `R`
and running context `d'`) and step `s` then fails, the workflow returns
`success = false`, an error naming the failed extension, and exactly the
StepResults of the executed steps (`R` plus the failing result) — the steps
of `post` are never executed, since the output does not depend on them. -/
theorem workflow_aborts_at_first_failed_step
    (runStep : WorkflowStep → DataDict → StepResult) (data : DataDict)
    (pre : List WorkflowStep) (s : WorkflowStep) (post : List WorkflowStep)
    (R : List StepResult) (d' : DataDict)
    (hpre : execSequentialWorkflow runStep pre data = ⟨true, none, R, some d'⟩)
    (hfail : (runStep s d').success = false) :
    execSequentialWorkflow runStep (pre ++ s :: post) data =
      ⟨false, some (stepFailMsg s (runStep s d')), R ++ [runStep s d'], none⟩ :=
  execSeqAux_append_fail runStep data s post pre data R d' hpre hfail

/-- Witness for claim C2: a concrete two-step run where `alpha` succeeds and
`beta` fails, instantiating `workflow_aborts_at_first_failed_step`. -/
theorem workflow_aborts_at_first_failed_step_witness :
    execSequentialWorkflow runStepsEx [stepAlphaEx, stepBetaEx] origDataEx =
      ⟨false, some "Step beta failed: boom", [resAlphaEx, resBetaEx], none⟩ := by
  have h := workflow_aborts_at_first_failed_step runStepsEx origDataEx [stepAlphaEx]
    stepBetaEx [] [resAlphaEx] mergedAfterAlphaEx (by decide) (by decide)
  simp only [List.cons_append, List.nil_append] at h
  rw [h]
  decide

/-- Claim C3: `analyze_query` reports `requires_workflow` exactly when more
than one (threshold- and redundancy-filtered) capability was detected, or
the query matches one of the fixed sequential-connective, parallel-
connective or numeric output-constraint regular expressions. -/
theorem requires_workflow_iff_multi_capability_or_indicator
    (st : AnalyzerState) (q : String) :
    (analyzeQuery st q).requires_workflow =
      (decide (1 < (detectRequiredCapabilities st q).length)
        || searchAny sequentialConnectors (toLowerStr q)
        || searchAny parallelConnectors (toLowerStr q)
        || searchAny constraintPatterns (toLowerStr q)) := by
  cases hreq : (decide (1 < (detectRequiredCapabilities st q).length)
      || hasWorkflowIndicators q) with
  | true =>
    rw [show (analyzeQuery st q).requires_workflow = true by
      simp only [analyzeQuery, hreq]; rfl]
    simp only [hasWorkflowIndicators, ← Bool.or_assoc] at hreq
    exact hreq.symm
  | false =>
    rw [show (analyzeQuery st q).requires_workflow = false by
      simp only [analyzeQuery, hreq]; rfl]
    simp only [hasWorkflowIndicators, ← Bool.or_assoc] at hreq
    exact hreq.symm

/-- Claim C4: under an explicit word-count constraint in the query, the
reordered pipeline is exactly the research-classified workers (in input
order), then the unclassified workers, then the summarize-classified
workers — so every research-classified worker is placed before every
unclassified worker, and every unclassified worker before every
summarize-classified one, whatever the order of the manifest or of the
input pipeline. The hypotheses require one research-classified and one
summarize-classified member, as in the claim (this also puts the pipeline
above the length-1 early return). -/
theorem constraint_reorder_research_before_summary
    (st : AnalyzerState) (q : String) (pipeline : List String) (r s : String)
    (hq : hasWordConstraints q = true)
    (hr : r ∈ pipeline) (hs : s ∈ pipeline)
    (hrc : classifyExt st r = .research) (hsc : classifyExt st s = .summary) :
    optimizePipelineFlow st pipeline q =
      pipeline.filter (fun e => classifyExt st e == ExtFlowClass.research)
        ++ pipeline.filter (fun e => classifyExt st e == ExtFlowClass.other)
        ++ pipeline.filter (fun e => classifyExt st e == ExtFlowClass.summary) := by
  have hne : r ≠ s := by
    intro h
    rw [h, hsc] at hrc
    cases hrc
  have hlen : ¬ pipeline.length ≤ 1 := by
    intro hle
    match pipeline, hr, hs with
    | [x], hr, hs =>
      have h1 : r = x := List.mem_singleton.mp hr
      have h2 : s = x := List.mem_singleton.mp hs
      exact hne (h1.trans h2.symm)
    | x :: y :: rest, _, _ => simp at hle
  rw [optimizePipelineFlow, if_neg hlen, if_pos hq, partitionByClass_eq]

/-- Witness for claim C4: with the summarizer listed first in both the
manifest and the input pipeline and a "in 50 words" constraint, the
reordering puts the research worker strictly first. -/
theorem constraint_reorder_research_before_summary_witness :
    hasWordConstraints "summarize this in 50 words" = true ∧
    optimizePipelineFlow stTwoEx ["topic-agent", "research-agent"]
        "summarize this in 50 words" = ["research-agent", "topic-agent"] := by
  refine ⟨by decide, ?_⟩
  have h := constraint_reorder_research_before_summary stTwoEx
    "summarize this in 50 words" ["topic-agent", "research-agent"]
    "research-agent" "topic-agent" (by decide) (by decide) (by decide)
    (by decide) (by decide)
  rw [h]
  decide

/-- Claim C5: when the manifest is missing or unparsable
(`_load_master_config` returned `None`) or contains no enabled worker,
`route_request` never consults the downstream routing (the result does not
depend on `downstream`), reports the configuration failure in the result's
reason, and names no worker — the fallback resolution itself yields the
sentinel identifier `"unknown"` with zero confidence. The source has no
exception type; this fallback `RoutingResult` is how the configuration
error is reported. -/
theorem route_request_reports_configuration_error
    (cfg : Option MasterConfig) (downstream : List MasterExt → RouteOutcome)
    (h : cfg = none ∨ enabledExtensions cfg = []) :
    routeRequest cfg downstream =
      .single { extension_id := "unknown", confidence := 0,
                reason := "Fallback: " ++ (if cfg = none then "Master config not loaded"
                  else "No enabled extensions found"),
                matched_keywords := [], is_workflow := false } := by
  rcases h with rfl | hemp
  · simp [routeRequest, getFallbackResult, findBestFallbackExtension]
  · cases cfg with
    | none => simp [routeRequest, getFallbackResult, findBestFallbackExtension]
    | some c =>
      have hen : c.extensions.filter (·.enabled) = [] := hemp
      simp [routeRequest, hen, getFallbackResult, findBestFallbackExtension]

/-- Witness for claim C5: a missing manifest routes to the fallback result
naming no worker, for an arbitrary downstream router. -/
theorem route_request_reports_configuration_error_witness :
    routeRequest none downstreamEx =
      .single { extension_id := "unknown", confidence := 0,
                reason := "Fallback: Master config not loaded",
                matched_keywords := [], is_workflow := false } := by
  have h := route_request_reports_configuration_error none downstreamEx (Or.inl rfl)
  simpa using h

/-- Counterexample to claim C6 as stated: on the query `"hello"` against a
registry with one research worker, `analyze_query` takes the no-workflow
path but the suggested pipeline is empty — there is no worker for the
generic fallback capability (`'general'` has no bucket and no synonyms), so
`_find_best_extension_for_capability` returns `None` and the source emits
`[]`, not a one-element pipeline. -/
theorem no_workflow_empty_pipeline_counterexample :
    (analyzeQuery stResearchEx "hello").requires_workflow = false ∧
    (analyzeQuery stResearchEx "hello").suggested_pipeline = [] := by
  decide

/-- Claim C6 as amended: on the no-workflow path the analysis carries the
fixed confidence 0.9 and complexity `"simple"`, and its suggested pipeline
is the one-element list naming the best worker for the sole detected
capability (or the `"general"` fallback) whenever the best-worker search
succeeds — and the empty list when it returns none. -/
theorem no_workflow_analysis_shape (st : AnalyzerState) (q : String)
    (h : (analyzeQuery st q).requires_workflow = false) :
    (analyzeQuery st q).confidence = 9 / 10 ∧
    (analyzeQuery st q).complexity = "simple" ∧
    (analyzeQuery st q).suggested_pipeline =
      ((findBestExtensionForCapability st
          ((detectRequiredCapabilities st q).headD "general") q).map
        (fun b => [b])).getD [] := by
  cases hreq : (decide (1 < (detectRequiredCapabilities st q).length)
      || hasWorkflowIndicators q) with
  | true =>
    exfalso
    rw [show (analyzeQuery st q).requires_workflow = true by
      simp only [analyzeQuery, hreq]; rfl] at h
    cases h
  | false =>
    refine ⟨?_, ?_, ?_⟩
    · rw [show (analyzeQuery st q).confidence = tenthsToRat 9 by
        simp only [analyzeQuery, hreq]; rfl]
      rw [tenthsToRat]
      norm_num
    · simp only [analyzeQuery, hreq]
      rfl
    · rw [show (analyzeQuery st q).suggested_pipeline =
          (match findBestExtensionForCapability st
              ((detectRequiredCapabilities st q).headD "general") q with
            | some b => [b]
            | none => []) by
        simp only [analyzeQuery, hreq]; rfl]
      cases findBestExtensionForCapability st
          ((detectRequiredCapabilities st q).headD "general") q with
      | some b => rfl
      | none => rfl

/-- Witness for the amended claim C6: a query whose sole detected capability
has a matching worker yields the one-element pipeline, confidence 0.9. -/
theorem no_workflow_analysis_shape_witness :
    (analyzeQuery stResearchEx "research this topic").requires_workflow = false ∧
    (analyzeQuery stResearchEx "research this topic").confidence = 9 / 10 ∧
    (analyzeQuery stResearchEx "research this topic").suggested_pipeline =
      ["research-agent"] := by
  have h := no_workflow_analysis_shape stResearchEx "research this topic" (by decide)
  refine ⟨by decide, h.1, ?_⟩
  rw [h.2.2]
  decide

/-- Counterexample to claim C7 as stated: on a twenty-one-word query with
one detected capability and no workflow indicator, `analyze_query` takes the
no-workflow path and hardcodes complexity `"simple"`, while the claimed
score mapping (1 capability + 2 for more than twenty words) yields
`"moderate"` — `_estimate_complexity` is only consulted on the workflow
path. -/
theorem complexity_claim_counterexample :
    (analyzeQuery stResearchEx q21Ex).complexity = "simple" ∧
    ((let caps := detectRequiredCapabilities stResearchEx q21Ex
      let score := caps.length
        + (if 20 < wordCount q21Ex then 2 else if 10 < wordCount q21Ex then 1 else 0)
        + (if searchAny parallelConnectors (toLowerStr q21Ex) then 2 else 0)
      if score ≤ 2 then "simple" else if score ≤ 4 then "moderate" else "complex")
      = "moderate") := by
  constructor
  · decide
  · decide

/-- Claim C7 as amended: the complexity reported by `analyze_query` is the
claimed mapping of the score (detected capability count, plus 2 for more
than twenty words or else 1 for more than ten, plus 2 for a parallel
connective; simple at most 2, moderate at most 4, complex above) exactly
when a workflow is required, and the fixed string `"simple"` otherwise. -/
theorem analyze_complexity_mapping (st : AnalyzerState) (q : String) :
    (analyzeQuery st q).complexity =
      (if (analyzeQuery st q).requires_workflow then
        (let caps := detectRequiredCapabilities st q
         let score := caps.length
           + (if 20 < wordCount q then 2 else if 10 < wordCount q then 1 else 0)
           + (if searchAny parallelConnectors (toLowerStr q) then 2 else 0)
         if score ≤ 2 then "simple" else if score ≤ 4 then "moderate" else "complex")
       else "simple") := by
  cases hreq : (decide (1 < (detectRequiredCapabilities st q).length)
      || hasWorkflowIndicators q) with
  | true =>
    rw [show (analyzeQuery st q).requires_workflow = true by
      simp only [analyzeQuery, hreq]; rfl]
    rw [show (analyzeQuery st q).complexity =
        estimateComplexity (detectRequiredCapabilities st q) q by
      simp only [analyzeQuery, hreq]; rfl]
    rw [if_pos rfl]
    rfl
  | false =>
    rw [show (analyzeQuery st q).requires_workflow = false by
      simp only [analyzeQuery, hreq]; rfl]
    rw [show (analyzeQuery st q).complexity = "simple" by
      simp only [analyzeQuery, hreq]; rfl]
    rfl

/-- Filtering the optional head of a `Q`-filtered list by a predicate `P`
that `Q` excludes yields nothing. -/
theorem filter_headToList_nil (l : List String) (Q P : String → Bool)
    (h : ∀ x, Q x = true → P x = false) :
    ((l.filter Q).head?.toList.filter P) = [] := by
  cases hs : (l.filter Q).head? with
  | none => rfl
  | some x =>
    have hx : x ∈ l.filter Q := List.mem_of_mem_head? (by rw [hs]; rfl)
    have hQ : Q x = true := (List.mem_filter.mp hx).2
    simp [List.filter, h x hQ]

/-- Filtering the one-or-zero-element list of an optional head keeps at most
one element. -/
theorem filter_headToList_le_one (o : Option String) (P : String → Bool) :
    (o.toList.filter P).length ≤ 1 := by
  cases o with
  | none => simp
  | some x =>
    cases hp : P x <;> simp [List.filter, hp]

/-- The filtered view of `filterRedundantCore` for a predicate that only
holds on `majorCategories` is the filtered view of the three family
heads. -/
theorem filterRedundantCore_filter (l : List String) (P : String → Bool)
    (hP : ∀ c, P c = true → c ∈ majorCategories) :
    (filterRedundantCore l).filter P =
      ((l.filter isResearchCap).head?.toList.filter P)
        ++ ((l.filter isSummaryCap).head?.toList.filter P)
        ++ ((l.filter isAnalysisCap).head?.toList.filter P) := by
  rw [filterRedundantCore]
  rw [redundantFold_filter P hP]
  rw [List.filter_append, List.filter_append]

/-- Membership in `filterRedundantCore` for non-major tokens. -/
theorem filterRedundantCore_mem (l : List String) (c : String)
    (hc : c ∉ majorCategories) (hmem : c ∈ l) : c ∈ filterRedundantCore l := by
  rw [filterRedundantCore]
  exact redundantFold_mem c hc l _ hmem

/-- A capability that is not the exact token `'research'` or `'search'`
survives the erase phase. -/
theorem mem_filterRedundantErase (caps : List String) (c : String)
    (hmem : c ∈ caps) (hr : c ≠ "research") (hs : c ≠ "search") :
    c ∈ filterRedundantErase caps := by
  rw [filterRedundantErase]
  set caps1 := (if "research" ∈ caps ∧ "comprehensive research" ∈ caps then
      caps.erase "research" else caps) with hdef
  have hc1 : c ∈ caps1 := by
    rw [hdef]
    split
    · exact (List.mem_erase_of_ne hr).mpr hmem
    · exact hmem
  split
  · exact (List.mem_erase_of_ne hs).mpr hc1
  · exact hc1

/-- Counterexample to claim C8 as stated: the filter keeps both `'research'`
and `'research paper'`, two tokens of the research family (the family test
of the source is the substring test `'research' in cap`), because the final
loop re-admits any token outside the fixed six-element `major_categories`
set. -/
theorem filter_redundant_two_family_tokens_counterexample :
    filterRedundantCapabilities ["research", "research paper"] "" =
      ["research", "research paper"] ∧
    ((filterRedundantCapabilities ["research", "research paper"] "").filter
      isResearchCap).length = 2 := by
  decide

/-- Claim C8 as amended: the redundancy filter keeps at most one of the
exact major research tokens `{'research', 'comprehensive research'}`, at
most one of `{'summarize', 'summary'}` and at most one of
`{'analyze', 'analysis'}` (the first — highest-scored — family member
becomes the representative), and keeps verbatim every input token outside
the three substring families, except the exact token `'search'` (which the
source drops whenever an exact research token is present). Family-flavoured
tokens other than the six exact major tokens are also kept verbatim, so
more than one token of a family can survive. -/
theorem filter_redundant_major_reps (caps : List String) (q : String) :
    ((filterRedundantCapabilities caps q).filter
        (fun c => c == "research" || c == "comprehensive research")).length ≤ 1 ∧
    ((filterRedundantCapabilities caps q).filter
        (fun c => c == "summarize" || c == "summary")).length ≤ 1 ∧
    ((filterRedundantCapabilities caps q).filter
        (fun c => c == "analyze" || c == "analysis")).length ≤ 1 ∧
    (∀ c ∈ caps, isFamilyToken c = false → c ≠ "search" →
      c ∈ filterRedundantCapabilities caps q) := by
  have heq : filterRedundantCapabilities caps q =
      filterRedundantCore (filterRedundantErase caps) := rfl
  refine ⟨?_, ?_, ?_, ?_⟩
  · rw [heq, filterRedundantCore_filter _ _ ?hmaj1]
    case hmaj1 =>
      intro c hc
      rcases Bool.or_eq_true _ _ |>.mp hc with h | h <;>
        (rw [eq_of_beq h]; decide)
    rw [filter_headToList_nil _ isSummaryCap _ ?hs1,
      filter_headToList_nil _ isAnalysisCap _ ?ha1]
    case hs1 =>
      intro x hx
      by_contra hP
      rcases Bool.or_eq_true _ _ |>.mp (Bool.of_not_eq_false hP) with h | h <;>
        (rw [eq_of_beq h] at hx; exact absurd hx (by decide))
    case ha1 =>
      intro x hx
      by_contra hP
      rcases Bool.or_eq_true _ _ |>.mp (Bool.of_not_eq_false hP) with h | h <;>
        (rw [eq_of_beq h] at hx; exact absurd hx (by decide))
    simpa using filter_headToList_le_one
      ((filterRedundantErase caps).filter isResearchCap).head?
      (fun c => c == "research" || c == "comprehensive research")
  · rw [heq, filterRedundantCore_filter _ _ ?hmaj2]
    case hmaj2 =>
      intro c hc
      rcases Bool.or_eq_true _ _ |>.mp hc with h | h <;>
        (rw [eq_of_beq h]; decide)
    rw [filter_headToList_nil _ isResearchCap _ ?hr2,
      filter_headToList_nil _ isAnalysisCap _ ?ha2]
    case hr2 =>
      intro x hx
      by_contra hP
      rcases Bool.or_eq_true _ _ |>.mp (Bool.of_not_eq_false hP) with h | h <;>
        (rw [eq_of_beq h] at hx; exact absurd hx (by decide))
    case ha2 =>
      intro x hx
      by_contra hP
      rcases Bool.or_eq_true _ _ |>.mp (Bool.of_not_eq_false hP) with h | h <;>
        (rw [eq_of_beq h] at hx; exact absurd hx (by decide))
    simpa using filter_headToList_le_one
      ((filterRedundantErase caps).filter isSummaryCap).head?
      (fun c => c == "summarize" || c == "summary")
  · rw [heq, filterRedundantCore_filter _ _ ?hmaj3]
    case hmaj3 =>
      intro c hc
      rcases Bool.or_eq_true _ _ |>.mp hc with h | h <;>
        (rw [eq_of_beq h]; decide)
    rw [filter_headToList_nil _ isResearchCap _ ?hr3,
      filter_headToList_nil _ isSummaryCap _ ?hs3]
    case hr3 =>
      intro x hx
      by_contra hP
      rcases Bool.or_eq_true _ _ |>.mp (Bool.of_not_eq_false hP) with h | h <;>
        (rw [eq_of_beq h] at hx; exact absurd hx (by decide))
    case hs3 =>
      intro x hx
      by_contra hP
      rcases Bool.or_eq_true _ _ |>.mp (Bool.of_not_eq_false hP) with h | h <;>
        (rw [eq_of_beq h] at hx; exact absurd hx (by decide))
    simpa using filter_headToList_le_one
      ((filterRedundantErase caps).filter isAnalysisCap).head?
      (fun c => c == "analyze" || c == "analysis")
  · intro c hmem hfam hsearch
    have hr : c ≠ "research" := by
      intro h
      rw [h] at hfam
      exact absurd hfam (by decide)
    have hmaj : c ∉ majorCategories := by
      intro hm
      have hft : isFamilyToken c = true := by
        fin_cases hm <;> decide
      rw [hft] at hfam
      cases hfam
    rw [heq]
    exact filterRedundantCore_mem _ c hmaj (mem_filterRedundantErase caps c hmem hr hsearch)

/-- Witness for the amended claim C8: a non-family token next to a research
token survives the filter, by `filter_redundant_major_reps`. -/
theorem filter_redundant_major_reps_witness :
    "custom paper" ∈ filterRedundantCapabilities ["research", "custom paper"] "" := by
  have h := (filter_redundant_major_reps ["research", "custom paper"] "").2.2.2
  exact h "custom paper" (by decide) (by decide) (by decide)

/-- Claim C9: when the pooled process of a worker identifier has died
between two calls, the next call on that identifier spawns a fresh process
(fresh process identity, stored back in the pool), returns the worker's
successful response, is indistinguishable from the same call on a pool that
never held that identifier (same response value), and leaves the pool
entries of every other identifier unchanged. -/
theorem warm_pool_restart_transparent (registry : List (String × String))
    (respond : Nat → ProcResponse) (st : PoolState) (extId script : String)
    (p : ExtProc)
    (hreg : lookupAssoc registry extId = some script)
    (hdead : lookupAssoc st.warm extId = some p)
    (halive : p.alive = false)
    (hok : (respond st.nextPid).success = true) :
    callExtension registry respond st extId =
      .ok (respond st.nextPid,
        { warm := updateAssoc st.warm extId (startProcess script st.nextPid),
          nextPid := st.nextPid + 1 }) ∧
    callExtension registry respond ⟨removeAssoc st.warm extId, st.nextPid⟩ extId =
      .ok (respond st.nextPid,
        { warm := updateAssoc (removeAssoc st.warm extId) extId
            (startProcess script st.nextPid),
          nextPid := st.nextPid + 1 }) ∧
    (∀ r stD, callExtension registry respond st extId = .ok (r, stD) →
      r.success = true) ∧
    (∀ extId2, extId2 ≠ extId →
      lookupAssoc (updateAssoc st.warm extId (startProcess script st.nextPid)) extId2 =
        lookupAssoc st.warm extId2) := by
  have h1 : callExtension registry respond st extId =
      .ok (respond st.nextPid,
        { warm := updateAssoc st.warm extId (startProcess script st.nextPid),
          nextPid := st.nextPid + 1 }) := by
    simp only [callExtension, getOrCreateProcess, hdead, halive, hreg,
      Bool.false_and, Bool.false_eq_true, if_false, procExecute, startProcess,
      updateAssoc_updateAssoc]
    simp
  refine ⟨h1, ?_, ?_, ?_⟩
  · simp only [callExtension, getOrCreateProcess,
      lookupAssoc_removeAssoc_self st.warm extId, hreg, procExecute,
      startProcess, updateAssoc_updateAssoc]
    simp
  · intro r stD hcall
    rw [h1] at hcall
    have hr : r = respond st.nextPid := by
      cases hcall
      rfl
    rw [hr]
    exact hok
  · intro extId2 hne
    exact lookupAssoc_updateAssoc_ne st.warm extId extId2 _ hne

/-- Witness for claim C9: the concrete pool whose process for `w` has died;
the call restarts it with the next process identity and the entry for `v`
is untouched. -/
theorem warm_pool_restart_transparent_witness :
    callExtension regW respondW poolW "w" =
      .ok (⟨true, [("ok", .prim (.pBool true))]⟩,
        ⟨[("w", ⟨"w.py", 7, true, false⟩), ("v", ⟨"v.py", 1, true, false⟩)], 8⟩) ∧
    lookupAssoc (updateAssoc poolW.warm "w" (startProcess "w.py" 7)) "v" =
      some ⟨"v.py", 1, true, false⟩ := by
  have h := warm_pool_restart_transparent regW respondW poolW "w" "w.py"
    ⟨"w.py", 0, false, false⟩ (by decide) (by decide) rfl (by decide)
  constructor
  · rw [h.1]
    decide
  · have h3 := h.2.2.2 "v" (by decide)
    rw [show poolW.nextPid = 7 from rfl] at h3
    rw [h3]
    decide

/-- Claim C10: the confidence of every `analyze_query` result lies in the
closed interval [0.1, 0.9]; the no-workflow path fixes it at 0.9, and the
workflow path computes `max(0.1, 0.8 - 0.2 × number of capabilities with no
suitable worker)`. -/
theorem analyze_confidence_bounds (st : AnalyzerState) (q : String) :
    (1 / 10 : ℚ) ≤ (analyzeQuery st q).confidence ∧
    (analyzeQuery st q).confidence ≤ 9 / 10 ∧
    ((analyzeQuery st q).requires_workflow = false →
      (analyzeQuery st q).confidence = 9 / 10) ∧
    ((analyzeQuery st q).requires_workflow = true →
      (analyzeQuery st q).confidence =
        max (1 / 10)
          (4 / 5 - (1 / 5) * (((detectRequiredCapabilities st q).filter
            (fun c => (findBestExtensionForCapability st c q).isNone)).length : ℚ))) := by
  cases hreq : (decide (1 < (detectRequiredCapabilities st q).length)
      || hasWorkflowIndicators q) with
  | false =>
    have hwf : (analyzeQuery st q).requires_workflow = false := by
      simp only [analyzeQuery, hreq]; rfl
    have hconf : (analyzeQuery st q).confidence = 9 / 10 := by
      rw [show (analyzeQuery st q).confidence = tenthsToRat 9 by
        simp only [analyzeQuery, hreq]; rfl]
      rw [tenthsToRat]
      norm_num
    refine ⟨by rw [hconf]; norm_num, by rw [hconf], fun _ => hconf, fun h => ?_⟩
    rw [hwf] at h
    cases h
  | true =>
    have hwf : (analyzeQuery st q).requires_workflow = true := by
      simp only [analyzeQuery, hreq]; rfl
    have hplan : (planDynamicWorkflow st q (detectRequiredCapabilities st q)).confidence10 =
        max (1 : Int) (((detectRequiredCapabilities st q).foldl
          (fun (acc : List String × Int × List String) cap =>
            match findBestExtensionForCapability st cap q with
            | some best => (acc.1 ++ [best], acc.2.1, acc.2.2 ++ [cap ++ " → " ++ best])
            | none => (acc.1, acc.2.1 - 2, acc.2.2 ++ [cap ++ " → no suitable extension"]))
          ([], 8, [])).2.1) := rfl
    have hfold := planFold_confidence st q (detectRequiredCapabilities st q) [] 8 []
    rw [hfold] at hplan
    have hconf : (analyzeQuery st q).confidence =
        tenthsToRat (max 1 (8 - 2 * (((detectRequiredCapabilities st q).filter
          (fun c => (findBestExtensionForCapability st c q).isNone)).length : Int))) := by
      rw [show (analyzeQuery st q).confidence =
          tenthsToRat (planDynamicWorkflow st q (detectRequiredCapabilities st q)).confidence10 by
        simp only [analyzeQuery, hreq]; rfl]
      rw [hplan]
    set n : Int := (((detectRequiredCapabilities st q).filter
      (fun c => (findBestExtensionForCapability st c q).isNone)).length : Int) with hn
    have hn0 : (0 : Int) ≤ n := by
      rw [hn]
      exact Int.natCast_nonneg _
    have hmax9 : max 1 (8 - 2 * n) ≤ (9 : Int) := by
      apply max_le
      · omega
      · omega
    have hmax1 : (1 : Int) ≤ max 1 (8 - 2 * n) := le_max_left _ _
    have hval : (analyzeQuery st q).confidence =
        max (1 / 10 : ℚ) (4 / 5 - (1 / 5) * (n : ℚ)) := by
      rw [hconf, tenthsToRat]
      push_cast
      rw [← max_div_div_right (by norm_num : (0:ℚ) ≤ 10)]
      congr 1
      ring
    refine ⟨?_, ?_, fun h => ?_, fun _ => ?_⟩
    · rw [hval]
      exact le_max_left _ _
    · rw [hconf, tenthsToRat]
      rw [div_le_iff₀ (by norm_num : (0:ℚ) < 10)]
      calc ((max (1 : Int) (8 - 2 * n) : Int) : ℚ) ≤ ((9 : Int) : ℚ) := by
            exact_mod_cast hmax9
        _ = 9 := by norm_num
        _ ≤ 9 / 10 * 10 := by norm_num
    · rw [hwf] at h
      cases h
    · rw [hval, hn]
      push_cast
      ring_nf

/-- Witness for claim C10: a two-capability query on the workflow path; the
confidence equals the clamped formula, by `analyze_confidence_bounds`. -/
theorem analyze_confidence_bounds_witness :
    (analyzeQuery stTwoEx "research and summarize this in 30 words").requires_workflow
      = true ∧
    (analyzeQuery stTwoEx "research and summarize this in 30 words").confidence =
      max (1 / 10 : ℚ) (4 / 5 - (1 / 5) *
        (((detectRequiredCapabilities stTwoEx
            "research and summarize this in 30 words").filter
          (fun c => (findBestExtensionForCapability stTwoEx c
            "research and summarize this in 30 words").isNone)).length : ℚ)) := by
  refine ⟨by decide, ?_⟩
  exact (analyze_confidence_bounds stTwoEx
    "research and summarize this in 30 words").2.2.2 (by decide)
